import Mathlib

/-!
Shallow embedding of the bittrex-api REST client (src/rest-client.ts,
src/utils.ts, src/errors.ts, src/models.ts) together with models of the
external collaborators the executor uses (Node querystring, Node crypto,
the url-join package), and proofs about the request-construction and
response-normalization behaviour.

JavaScript objects whose values are strings or undefined are embedded as
insertion-ordered association lists; a value of none models undefined.
Mutation performed by Object.assign on its target is embedded by returning
the post-call state of the target object.
-/

set_option maxRecDepth 8192

/-- JS property write o[k] = v: updates the first binding of k in place
(preserving its position) or appends a new binding at the end, exactly the
JS own-property insertion-order semantics. -/
def objSet {α : Type} (o : List (String × α)) (k : String) (v : α) :
    List (String × α) :=
  match o with
  | [] => [(k, v)]
  | (k', v') :: rest => if k' = k then (k, v) :: rest else (k', v') :: objSet rest k v

/-- Object.assign(target, src): every own property of src is written onto
target, in order. The returned list is also the post-call state of the
(mutated) target object. -/
def objAssign {α : Type} (target src : List (String × α)) : List (String × α) :=
  src.foldl (fun acc kv => objSet acc kv.1 kv.2) target

/-- JS property read o[k]: the value at the first binding of k. -/
def objGet {α : Type} (o : List (String × α)) (k : String) : Option α :=
  match o with
  | [] => none
  | (k', v) :: rest => if k' = k then some v else objGet rest k

theorem objGet_objSet_self {α : Type} (o : List (String × α)) (k : String) (v : α) :
    objGet (objSet o k v) k = some v := by
  induction o with
  | nil => simp [objSet, objGet]
  | cons hd tl ih =>
    obtain ⟨k', v'⟩ := hd
    by_cases h : k' = k
    · simp [objSet, objGet, h]
    · simp [objSet, objGet, h, ih]

theorem objGet_objSet_ne {α : Type} (o : List (String × α)) {k k' : String} (v : α)
    (h : k' ≠ k) : objGet (objSet o k' v) k = objGet o k := by
  induction o with
  | nil => simp [objSet, objGet, h]
  | cons hd tl ih =>
    obtain ⟨k'', v''⟩ := hd
    by_cases h2 : k'' = k'
    · simp [objSet, objGet, h2, h]
    · simp only [objSet, if_neg h2]
      by_cases h3 : k'' = k
      · simp [objGet, h3]
      · simp [objGet, h3, ih]

theorem mem_of_objGet {α : Type} {o : List (String × α)} {k : String} {v : α}
    (h : objGet o k = some v) : (k, v) ∈ o := by
  induction o with
  | nil => simp [objGet] at h
  | cons hd tl ih =>
    obtain ⟨k', v'⟩ := hd
    by_cases h2 : k' = k
    · simp only [objGet, if_pos h2] at h
      obtain rfl := h2
      obtain rfl : v' = v := by injection h
      exact List.mem_cons_self _ _
    · simp only [objGet, if_neg h2] at h
      exact List.mem_cons_of_mem _ (ih h)

/-- Modelled from Node querystring.escape (encodeURIComponent semantics):
characters left unescaped. -/
def noEscape (c : Char) : Bool :=
  c.isAlpha || c.isDigit || c = '-' || c = '_' || c = '.' || c = '!' ||
    c = '~' || c = '*' || c = '\'' || c = '(' || c = ')'

/-- UTF-8 encoding of a single code point, as a list of byte values. -/
def utf8EncodeChar (c : Char) : List Nat :=
  let n := c.toNat
  if n < 128 then [n]
  else if n < 2048 then [192 + n / 64, 128 + n % 64]
  else if n < 65536 then [224 + n / 4096, 128 + n / 64 % 64, 128 + n % 64]
  else [240 + n / 262144, 128 + n / 4096 % 64, 128 + n / 64 % 64, 128 + n % 64]

/-- UTF-8 bytes of a string (Buffer(s) in the source). -/
def utf8Bytes (s : String) : List Nat :=
  (s.data.map utf8EncodeChar).flatten

def hexDigitsUpper : List Char := "0123456789ABCDEF".data

/-- Percent-encoding of one byte, uppercase hex as Node produces. -/
def percentByte (b : Nat) : List Char :=
  ['%', hexDigitsUpper.getD (b / 16 % 16) '0', hexDigitsUpper.getD (b % 16) '0']

def escapeChar (c : Char) : List Char :=
  if noEscape c then [c] else ((utf8EncodeChar c).map percentByte).flatten

/-- Modelled from Node querystring.escape. -/
def qsEscape (s : String) : String :=
  ⟨(s.data.map escapeChar).flatten⟩

/-- One key=value fragment of the query string; an undefined value
serializes as an empty string after the equals sign. -/
def stringifyPair (kv : String × Option String) : String :=
  qsEscape kv.1 ++ "=" ++ (match kv.2 with | some v => qsEscape v | none => "")

def stringifyPairs (o : List (String × Option String)) : List String :=
  o.map stringifyPair

/-- Modelled from Node querystring.stringify for string/undefined valued
objects: key=value fragments joined with ampersands, in property order. -/
def stringify (o : List (String × Option String)) : String :=
  String.intercalate "&" (stringifyPairs o)

/-- The parameter-merge step of RestClient.http:
Object.assign(options.params or empty, apikey/nonce object). Object.assign
mutates its target, so this is also the state of the caller-supplied params
object after the call. -/
def injectAuthParams (callerParams : List (String × Option String))
    (apikey nonce : String) : List (String × Option String) :=
  objAssign callerParams [("apikey", some apikey), ("nonce", some nonce)]

theorem injectAuthParams_eq (callerParams : List (String × Option String))
    (apikey nonce : String) :
    injectAuthParams callerParams apikey nonce =
      objSet (objSet callerParams "apikey" (some apikey)) "nonce" (some nonce) := rfl

theorem objGet_injectAuthParams_apikey (callerParams : List (String × Option String))
    (apikey nonce : String) :
    objGet (injectAuthParams callerParams apikey nonce) "apikey" = some (some apikey) := by
  rw [injectAuthParams_eq, objGet_objSet_ne _ _ (by decide), objGet_objSet_self]

theorem objGet_injectAuthParams_nonce (callerParams : List (String × Option String))
    (apikey nonce : String) :
    objGet (injectAuthParams callerParams apikey nonce) "nonce" = some (some nonce) := by
  rw [injectAuthParams_eq, objGet_objSet_self]

theorem stringifyPair_mem_of_objGet {o : List (String × Option String)}
    {k : String} {v : Option String} (h : objGet o k = some v) :
    stringifyPair (k, v) ∈ stringifyPairs o :=
  List.mem_map_of_mem stringifyPair (mem_of_objGet h)

/-- Drops every trailing slash character. -/
def dropTrailingSlashes : List Char → List Char
  | [] => []
  | c :: cs =>
    match dropTrailingSlashes cs with
    | [] => if c = '/' then [] else [c]
    | r => c :: r

def stripTrailing (s : String) : String :=
  ⟨dropTrailingSlashes s.data⟩

def stripLeading (s : String) : String :=
  ⟨s.data.dropWhile (fun c => c = '/')⟩

/-- Modelled from the spec: the url-join package joins URL parts avoiding
duplicate or missing path separators regardless of leading/trailing slashes
on each part, and attaches a part that begins the query string without a
preceding separator. The package itself is an external dependency of the
repository and is not under src. -/
def joinTwo (acc next : String) : String :=
  if next.data.head? = some '?' then stripTrailing acc ++ next
  else stripTrailing acc ++ "/" ++ stripLeading next

/-- Modelled from the spec: url(...) applied to a list of URL parts. -/
def urlJoin (parts : List String) : String :=
  match parts with
  | [] => ""
  | p :: ps => ps.foldl joinTwo p

/-- The part between leading and trailing slashes. -/
def trimSlashes (s : String) : String :=
  stripTrailing (stripLeading s)

theorem dropTrailingSlashes_append (xs ys : List Char) :
    dropTrailingSlashes (xs ++ ys) =
      if dropTrailingSlashes ys = [] then dropTrailingSlashes xs
      else xs ++ dropTrailingSlashes ys := by
  induction xs with
  | nil =>
    by_cases h : dropTrailingSlashes ys = []
    · simp [h, dropTrailingSlashes]
    · simp [h]
  | cons c cs ih =>
    by_cases h : dropTrailingSlashes ys = []
    · simp only [h, if_true, eq_self_iff_true] at ih ⊢
      show dropTrailingSlashes (c :: (cs ++ ys)) = dropTrailingSlashes (c :: cs)
      simp only [dropTrailingSlashes, ih]
    · simp only [h, if_false] at ih ⊢
      show dropTrailingSlashes (c :: (cs ++ ys)) = (c :: cs) ++ dropTrailingSlashes ys
      simp only [dropTrailingSlashes, ih]
      cases hcd : cs ++ dropTrailingSlashes ys with
      | nil =>
        rcases List.append_eq_nil.mp hcd with ⟨-, h2⟩
        exact absurd h2 h
      | cons a as => exact congrArg (List.cons c) hcd.symm

theorem dropTrailingSlashes_slash_cons (l : List Char) (h : dropTrailingSlashes l ≠ []) :
    dropTrailingSlashes ('/' :: l) = '/' :: dropTrailingSlashes l := by
  cases hl : dropTrailingSlashes l with
  | nil => exact absurd hl h
  | cons a as => simp only [dropTrailingSlashes, hl]

theorem stripLeading_data (v : String) :
    (stripLeading v).data = v.data.dropWhile (fun c => c = '/') := rfl

theorem trimSlashes_data (v : String) :
    (trimSlashes v).data = dropTrailingSlashes (v.data.dropWhile (fun c => c = '/')) := rfl

theorem trimSlashes_ne_empty_data {v : String} (h : trimSlashes v ≠ "") :
    dropTrailingSlashes (v.data.dropWhile (fun c => c = '/')) ≠ [] := by
  intro hd
  exact h (congrArg String.mk hd)


/-- The URL produced by the four-part join performed inside RestClient.http,
in closed form: base, version and path appear separated by exactly one
slash each, independently of leading or trailing slashes on the version and
the path, and the query part follows the path immediately. -/
theorem urlJoin_bittrex (v p qs : String)
    (hv : v.data.head? ≠ some '?') (hp : p.data.head? ≠ some '?')
    (htv : trimSlashes v ≠ "") (htp : trimSlashes p ≠ "") :
    urlJoin ["https://bittrex.com/api/", v, p, "?" ++ qs] =
      "https://bittrex.com/api/" ++ trimSlashes v ++ "/" ++ trimSlashes p ++ ("?" ++ qs) := by
  have htv' := trimSlashes_ne_empty_data htv
  have htp' := trimSlashes_ne_empty_data htp
  have e1 : joinTwo "https://bittrex.com/api/" v =
      "https://bittrex.com/api" ++ "/" ++ stripLeading v := by
    rw [joinTwo, if_neg hv]
    rfl
  have hd1 : dropTrailingSlashes (("https://bittrex.com/api" ++ "/" ++ stripLeading v).data) =
      "https://bittrex.com/api".data ++ '/' :: dropTrailingSlashes
        (v.data.dropWhile (fun c => c = '/')) := by
    rw [String.data_append, String.data_append, stripLeading_data, List.append_assoc]
    have hys : dropTrailingSlashes ("/".data ++ v.data.dropWhile (fun c => c = '/')) =
        '/' :: dropTrailingSlashes (v.data.dropWhile (fun c => c = '/')) :=
      dropTrailingSlashes_slash_cons _ htv'
    rw [dropTrailingSlashes_append, hys, if_neg (by simp)]
  have e2 : joinTwo (joinTwo "https://bittrex.com/api/" v) p =
      "https://bittrex.com/api" ++ "/" ++ trimSlashes v ++ "/" ++ stripLeading p := by
    rw [e1, joinTwo, if_neg hp]
    have hdata : (stripTrailing ("https://bittrex.com/api" ++ "/" ++ stripLeading v)).data =
        ("https://bittrex.com/api" ++ "/" ++ trimSlashes v).data := by
      rw [show (stripTrailing ("https://bittrex.com/api" ++ "/" ++ stripLeading v)).data =
        dropTrailingSlashes (("https://bittrex.com/api" ++ "/" ++ stripLeading v).data)
        from rfl, hd1]
      simp [String.data_append, trimSlashes_data, show "/".data = ['/'] from rfl]
    have hs : stripTrailing ("https://bittrex.com/api" ++ "/" ++ stripLeading v) =
        "https://bittrex.com/api" ++ "/" ++ trimSlashes v := congrArg String.mk hdata
    rw [hs]
  have hq : ("?" ++ qs).data.head? = some '?' := by
    rw [String.data_append]
    rfl
  have hd2 : dropTrailingSlashes
      (("https://bittrex.com/api" ++ "/" ++ trimSlashes v ++ "/" ++ stripLeading p).data) =
      ("https://bittrex.com/api" ++ "/" ++ trimSlashes v).data ++ '/' :: dropTrailingSlashes
        (p.data.dropWhile (fun c => c = '/')) := by
    rw [String.data_append, String.data_append, stripLeading_data, List.append_assoc]
    have hys : dropTrailingSlashes ("/".data ++ p.data.dropWhile (fun c => c = '/')) =
        '/' :: dropTrailingSlashes (p.data.dropWhile (fun c => c = '/')) :=
      dropTrailingSlashes_slash_cons _ htp'
    rw [dropTrailingSlashes_append, hys, if_neg (by simp)]
  have hst : stripTrailing ("https://bittrex.com/api" ++ "/" ++ trimSlashes v ++ "/" ++
      stripLeading p) = "https://bittrex.com/api/" ++ trimSlashes v ++ "/" ++ trimSlashes p := by
    have hdata : (stripTrailing ("https://bittrex.com/api" ++ "/" ++ trimSlashes v ++ "/" ++
        stripLeading p)).data =
        ("https://bittrex.com/api/" ++ trimSlashes v ++ "/" ++ trimSlashes p).data := by
      rw [show (stripTrailing ("https://bittrex.com/api" ++ "/" ++ trimSlashes v ++ "/" ++
        stripLeading p)).data = dropTrailingSlashes (("https://bittrex.com/api" ++ "/" ++
        trimSlashes v ++ "/" ++ stripLeading p).data) from rfl, hd2]
      simp [String.data_append, trimSlashes_data, show "/".data = ['/'] from rfl,
        show "https://bittrex.com/api/".data = "https://bittrex.com/api".data ++ ['/'] from rfl]
    exact congrArg String.mk hdata
  show joinTwo (joinTwo (joinTwo "https://bittrex.com/api/" v) p) ("?" ++ qs) = _
  rw [e2, joinTwo, if_pos hq, hst]

/-- Reduction into a 64-bit word. -/
def w64 (n : Nat) : Nat := n % 18446744073709551616

/-- Right rotation of a 64-bit word. -/
def rotr64 (x n : Nat) : Nat := w64 ((x >>> n) ||| (x <<< (64 - n)))

def shaCh (x y z : Nat) : Nat := (x &&& y) ^^^ ((x ^^^ 18446744073709551615) &&& z)

def shaMaj (x y z : Nat) : Nat := (x &&& y) ^^^ (x &&& z) ^^^ (y &&& z)

def bigSigma0 (x : Nat) : Nat := rotr64 x 28 ^^^ rotr64 x 34 ^^^ rotr64 x 39

def bigSigma1 (x : Nat) : Nat := rotr64 x 14 ^^^ rotr64 x 18 ^^^ rotr64 x 41

def smallSigma0 (x : Nat) : Nat := rotr64 x 1 ^^^ rotr64 x 8 ^^^ (x >>> 7)

def smallSigma1 (x : Nat) : Nat := rotr64 x 19 ^^^ rotr64 x 61 ^^^ (x >>> 6)

/-- True exactly when n is prime, for n below 529: trial division by every
candidate below 23. -/
def isPrimeUnder529 (n : Nat) : Bool :=
  decide (2 <= n) &&
    (List.range 23).all (fun d => decide (d < 2) || decide (n <= d) || decide (n % d != 0))

/-- The first count primes (all below 500, enough for the 80 SHA-512
round constants). -/
def firstPrimes (count : Nat) : List Nat :=
  ((List.range 500).filter isPrimeUnder529).take count

/-- Fuel-driven binary search for the largest value in lo..hi satisfying a
downward-closed predicate. -/
def largestLe (pred : Nat -> Bool) : Nat -> Nat -> Nat -> Nat
  | lo, _, 0 => lo
  | lo, hi, fuel + 1 =>
    if hi <= lo then lo
    else
      let mid := (lo + hi + 1) / 2
      if pred mid then largestLe pred mid hi fuel else largestLe pred lo (mid - 1) fuel

/-- Integer cube root. -/
def icbrt (x : Nat) : Nat := largestLe (fun r => decide (r * r * r <= x)) 0 x 256

/-- Integer square root. -/
def isqrt (x : Nat) : Nat := largestLe (fun r => decide (r * r <= x)) 0 x 256

/-- Modelled from the spec: the SHA-512 round constants (FIPS 180-4), the
first 64 bits of the fractional parts of the cube roots of the first
eighty primes, as used by the Node crypto implementation of
createHmac("sha512", ...), which is external to this repository. -/
def sha512K : List Nat :=
  (firstPrimes 80).map (fun p => icbrt (p * 2 ^ 192) % 2 ^ 64)

/-- The eight 64-bit working variables of SHA-512. -/
structure Hash8 where
  a : Nat
  b : Nat
  c : Nat
  d : Nat
  e : Nat
  f : Nat
  g : Nat
  h : Nat

/-- Modelled from the spec: the SHA-512 initial hash value (FIPS 180-4),
the first 64 bits of the fractional parts of the square roots of the
first eight primes. -/
def sha512IVwords : List Nat :=
  (firstPrimes 8).map (fun p => isqrt (p * 2 ^ 128) % 2 ^ 64)

def sha512IV : Hash8 :=
  { a := sha512IVwords.getD 0 0, b := sha512IVwords.getD 1 0, c := sha512IVwords.getD 2 0,
    d := sha512IVwords.getD 3 0, e := sha512IVwords.getD 4 0, f := sha512IVwords.getD 5 0,
    g := sha512IVwords.getD 6 0, h := sha512IVwords.getD 7 0 }

/-- The 16 big-endian bytes encoding the bit length, for the SHA-512 pad. -/
def be128 (n : Nat) : List Nat :=
  (List.range 16).reverse.map (fun i => n >>> (8 * i) % 256)

/-- SHA-512 message padding: 0x80, zeros to 112 mod 128, 128-bit length. -/
def sha512Pad (msg : List Nat) : List Nat :=
  msg ++ [128] ++ List.replicate ((128 - (msg.length + 17) % 128) % 128) 0 ++
    be128 (8 * msg.length)

/-- Splits a byte list into 128-byte blocks; fuel keeps the recursion
structural so that proofs and kernel evaluation unfold it directly. -/
def chunks128 : Nat → List Nat → List (List Nat)
  | 0, _ => []
  | _, [] => []
  | fuel + 1, l => l.take 128 :: chunks128 fuel (l.drop 128)

/-- Big-endian word from a byte list. -/
def beWord (bytes : List Nat) : Nat :=
  bytes.foldl (fun acc b => acc * 256 + b) 0

/-- The 16 message words of one 128-byte block. -/
def blockWords (block : List Nat) : List Nat :=
  (List.range 16).map (fun i => beWord ((block.drop (8 * i)).take 8))

/-- Extends the 16 message words with k further schedule words. -/
def extendWords (w : List Nat) : Nat → List Nat
  | 0 => w
  | k + 1 =>
    let prev := extendWords w k
    prev ++ [w64 (smallSigma1 (prev.getD (prev.length - 2) 0) +
      prev.getD (prev.length - 7) 0 +
      smallSigma0 (prev.getD (prev.length - 15) 0) +
      prev.getD (prev.length - 16) 0)]

/-- One SHA-512 round on the working variables, for one constant/word pair. -/
def sha512Round (st : Hash8) (kw : Nat × Nat) : Hash8 :=
  let t1 := w64 (st.h + bigSigma1 st.e + shaCh st.e st.f st.g + kw.1 + kw.2)
  let t2 := w64 (bigSigma0 st.a + shaMaj st.a st.b st.c)
  { a := w64 (t1 + t2), b := st.a, c := st.b, d := st.c,
    e := w64 (st.d + t1), f := st.e, g := st.f, h := st.g }

/-- Compression of one 128-byte block into the running hash value. -/
def sha512Compress (st : Hash8) (block : List Nat) : Hash8 :=
  let w := extendWords (blockWords block) 64
  let r := (sha512K.zip w).foldl sha512Round st
  { a := w64 (st.a + r.a), b := w64 (st.b + r.b), c := w64 (st.c + r.c),
    d := w64 (st.d + r.d), e := w64 (st.e + r.e), f := w64 (st.f + r.f),
    g := w64 (st.g + r.g), h := w64 (st.h + r.h) }

/-- The 8 big-endian bytes of one 64-bit word. -/
def beBytes8 (x : Nat) : List Nat :=
  (List.range 8).reverse.map (fun i => x >>> (8 * i) % 256)

/-- Serialization of the final hash value: 64 digest bytes. -/
def hash8Bytes (st : Hash8) : List Nat :=
  beBytes8 st.a ++ beBytes8 st.b ++ beBytes8 st.c ++ beBytes8 st.d ++
    beBytes8 st.e ++ beBytes8 st.f ++ beBytes8 st.g ++ beBytes8 st.h

/-- Modelled from the spec: SHA-512 over a byte list (FIPS 180-4), the
digest used by Node createHmac("sha512", ...). -/
def sha512 (msg : List Nat) : List Nat :=
  hash8Bytes ((chunks128 (sha512Pad msg).length (sha512Pad msg)).foldl sha512Compress sha512IV)

/-- Modelled from the spec: HMAC-SHA512 with a 128-byte block size. -/
def hmacSha512 (key msg : List Nat) : List Nat :=
  let k0 := if 128 < key.length then sha512 key else key
  let kp := k0 ++ List.replicate (128 - k0.length) 0
  sha512 ((kp.map (fun b => b ^^^ 92)) ++ sha512 ((kp.map (fun b => b ^^^ 54)) ++ msg))

def hexDigitsLower : List Char := "0123456789abcdef".data

/-- Lowercase hexadecimal rendering of a byte list, two digits per byte,
as produced by digest("hex"). -/
def toHexLower (bytes : List Nat) : String :=
  ⟨(bytes.map (fun b => [hexDigitsLower.getD (b / 16 % 16) '0',
    hexDigitsLower.getD (b % 16) '0'])).flatten⟩

/-- getHmac from src/utils.ts: createHmac("sha512", Buffer(apisecret))
.update(uri).digest("hex"), with the Node crypto primitive modelled above. -/
def getHmac (uri apisecret : String) : String :=
  toHexLower (hmacSha512 (utf8Bytes apisecret) (utf8Bytes uri))

theorem sha512_abc_vector :
    toHexLower (sha512 (utf8Bytes "abc")) =
      "ddaf35a193617abacc417349ae20413112e6fa4e89a97ea20a9eeee64b55d39a2192992a274fc1a836ba3c23a3feebbd454d4423643ce80e2a9ac94fa54ca49f" := by
  decide

theorem hmac_vector :
    getHmac "https://bittrex.com/api/v1.1/public/getmarkets?apikey=k&nonce=n"
      "an-api-secret-should-go-here" =
      "0348d30a8ac46f31c20571735459f1e1b7ee7b614e41594e7bc637758f0fa83c94fa9d084984e15f2204cb1dd6b837ba02d787e43525f1d07580b50bc2f1a67e" := by
  decide

theorem hash8Bytes_length (st : Hash8) : (hash8Bytes st).length = 64 := by
  simp [hash8Bytes, beBytes8]

theorem sha512_length (msg : List Nat) : (sha512 msg).length = 64 :=
  hash8Bytes_length _

theorem hexPair_flatten_length (bytes : List Nat) :
    ((bytes.map (fun b => [hexDigitsLower.getD (b / 16 % 16) '0',
      hexDigitsLower.getD (b % 16) '0'])).flatten).length = 2 * bytes.length := by
  induction bytes with
  | nil => rfl
  | cons b bs ih =>
    simp only [List.map_cons, List.flatten_cons, List.length_append, List.length_cons,
      List.length_nil, ih]
    omega

theorem toHexLower_length (bytes : List Nat) :
    (toHexLower bytes).length = 2 * bytes.length :=
  hexPair_flatten_length bytes

theorem getHmac_length (uri apisecret : String) :
    (getHmac uri apisecret).length = 128 := by
  show (toHexLower (hmacSha512 (utf8Bytes apisecret) (utf8Bytes uri))).length = 128
  rw [toHexLower_length]
  have : hmacSha512 (utf8Bytes apisecret) (utf8Bytes uri) =
      sha512 ((((if 128 < (utf8Bytes apisecret).length then sha512 (utf8Bytes apisecret)
        else utf8Bytes apisecret) ++
        List.replicate (128 - (if 128 < (utf8Bytes apisecret).length
          then sha512 (utf8Bytes apisecret) else utf8Bytes apisecret).length) 0).map
          (fun b => b ^^^ 92)) ++
        sha512 ((((if 128 < (utf8Bytes apisecret).length then sha512 (utf8Bytes apisecret)
          else utf8Bytes apisecret) ++
          List.replicate (128 - (if 128 < (utf8Bytes apisecret).length
            then sha512 (utf8Bytes apisecret) else utf8Bytes apisecret).length) 0).map
            (fun b => b ^^^ 54)) ++ utf8Bytes uri)) := rfl
  rw [this, sha512_length]

theorem getD_mem_hexDigitsLower : ∀ k, k < 16 → hexDigitsLower.getD k '0' ∈ hexDigitsLower := by
  decide

theorem toHexLower_chars (bytes : List Nat) :
    ∀ c ∈ (toHexLower bytes).data, c ∈ hexDigitsLower := by
  induction bytes with
  | nil => intro c hc; simp [toHexLower] at hc
  | cons b bs ih =>
    intro c hc
    have hc2 : c ∈ ([hexDigitsLower.getD (b / 16 % 16) '0', hexDigitsLower.getD (b % 16) '0'] :
        List Char) ∨ c ∈ (toHexLower bs).data := by
      have : (toHexLower (b :: bs)).data =
          [hexDigitsLower.getD (b / 16 % 16) '0', hexDigitsLower.getD (b % 16) '0'] ++
          (toHexLower bs).data := rfl
      rw [this] at hc
      exact List.mem_append.mp hc
    rcases hc2 with hc2 | hc2
    · rcases List.mem_cons.mp hc2 with rfl | hc3
      · exact getD_mem_hexDigitsLower _ (Nat.mod_lt _ (by decide))
      · rcases List.mem_cons.mp hc3 with rfl | hc4
        · exact getD_mem_hexDigitsLower _ (Nat.mod_lt _ (by decide))
        · simp at hc4
    · exact ih c hc2

/-- Modelled from the spec: the standard base64 alphabet used by
Buffer.toString("base64"). -/
def b64Alphabet : List Char :=
  "ABCDEFGHIJKLMNOPQRSTUVWXYZabcdefghijklmnopqrstuvwxyz0123456789+/".data

def b64Char (n : Nat) : Char := b64Alphabet.getD (n % 64) 'A'

/-- Modelled from the spec: standard base64 with padding, three input bytes
per four output characters. -/
def base64Encode : List Nat → List Char
  | a :: b :: c :: rest =>
    b64Char ((a * 65536 + b * 256 + c) / 262144) ::
      b64Char ((a * 65536 + b * 256 + c) / 4096) ::
      b64Char ((a * 65536 + b * 256 + c) / 64) ::
      b64Char (a * 65536 + b * 256 + c) :: base64Encode rest
  | [a, b] =>
    [b64Char ((a * 65536 + b * 256) / 262144), b64Char ((a * 65536 + b * 256) / 4096),
      b64Char ((a * 65536 + b * 256) / 64), '=']
  | [a] =>
    [b64Char (a * 65536 / 262144), b64Char (a * 65536 / 4096), '=', '=']
  | [] => []

/-- getNonce from src/utils.ts: randomBytes(16).toString("base64"). The 16
random bytes drawn by Node crypto.randomBytes are passed in as input. -/
def getNonce (bytes : List Nat) : String := ⟨base64Encode bytes⟩

theorem getNonce_zero_vector : getNonce (List.replicate 16 0) = "AAAAAAAAAAAAAAAAAAAAAA==" := by
  decide

theorem getNonce_range_vector :
    getNonce [0, 1, 2, 3, 4, 5, 6, 7, 8, 9, 10, 11, 12, 13, 14, 15] =
      "AAECAwQFBgcICQoLDA0ODw==" := by
  decide

theorem base64Encode_length (l : List Nat) :
    (base64Encode l).length = (l.length + 2) / 3 * 4 := by
  induction l using base64Encode.induct with
  | case1 a b c rest ih => simp only [base64Encode, List.length_cons, ih]; omega
  | case2 a b => simp [base64Encode]
  | case3 a => simp [base64Encode]
  | case4 => simp [base64Encode]

theorem b64Char_inj_mod {m n : Nat} (h : b64Char m = b64Char n) : m % 64 = n % 64 := by
  have hb : ∀ i, i < 64 → ∀ j, j < 64 →
      b64Alphabet.getD i 'A' = b64Alphabet.getD j 'A' → i = j := by decide
  exact hb _ (Nat.mod_lt _ (by decide)) _ (Nat.mod_lt _ (by decide)) h

theorem base64Encode_inj (l1 : List Nat) : ∀ l2 : List Nat, l1.length = l2.length →
    (∀ x ∈ l1, x < 256) → (∀ x ∈ l2, x < 256) →
    base64Encode l1 = base64Encode l2 → l1 = l2 := by
  induction l1 using base64Encode.induct with
  | case1 a b c rest ih =>
    intro l2 hlen hm1 hm2 henc
    rcases l2 with - | ⟨a2, l2⟩
    · simp at hlen
    rcases l2 with - | ⟨b2, l2⟩
    · simp at hlen
    rcases l2 with - | ⟨c2, l2⟩
    · simp at hlen
    simp only [base64Encode, List.cons.injEq] at henc
    obtain ⟨hc0, hc1, hc2, hc3, htail⟩ := henc
    have ha : a < 256 := hm1 a (by simp)
    have hb : b < 256 := hm1 b (by simp)
    have hc : c < 256 := hm1 c (by simp)
    have ha2 : a2 < 256 := hm2 a2 (by simp)
    have hb2 : b2 < 256 := hm2 b2 (by simp)
    have hc2' : c2 < 256 := hm2 c2 (by simp)
    have e0 := b64Char_inj_mod hc0
    have e1 := b64Char_inj_mod hc1
    have e2 := b64Char_inj_mod hc2
    have e3 := b64Char_inj_mod hc3
    have heq : a = a2 ∧ b = b2 ∧ c = c2 := by omega
    obtain ⟨rfl, rfl, rfl⟩ := heq
    have hrest : rest = l2 := by
      apply ih l2 (by simpa using hlen)
      · intro x hx; exact hm1 x (by simp [hx])
      · intro x hx; exact hm2 x (by simp [hx])
      · exact htail
    rw [hrest]
  | case2 a b =>
    intro l2 hlen hm1 hm2 henc
    rcases l2 with - | ⟨a2, l2⟩
    · simp at hlen
    rcases l2 with - | ⟨b2, l2⟩
    · simp at hlen
    rcases l2 with - | ⟨c2, l2⟩
    swap
    · simp at hlen
    simp only [base64Encode, List.cons.injEq] at henc
    obtain ⟨hc0, hc1, hc2, -⟩ := henc
    have ha : a < 256 := hm1 a (by simp)
    have hb : b < 256 := hm1 b (by simp)
    have ha2 : a2 < 256 := hm2 a2 (by simp)
    have hb2 : b2 < 256 := hm2 b2 (by simp)
    have e0 := b64Char_inj_mod hc0
    have e1 := b64Char_inj_mod hc1
    have e2 := b64Char_inj_mod hc2
    have heq : a = a2 ∧ b = b2 := by omega
    obtain ⟨rfl, rfl⟩ := heq
    rfl
  | case3 a =>
    intro l2 hlen hm1 hm2 henc
    rcases l2 with - | ⟨a2, l2⟩
    · simp at hlen
    rcases l2 with - | ⟨b2, l2⟩
    swap
    · simp at hlen
    simp only [base64Encode, List.cons.injEq] at henc
    obtain ⟨hc0, hc1, -⟩ := henc
    have ha : a < 256 := hm1 a (by simp)
    have ha2 : a2 < 256 := hm2 a2 (by simp)
    have e0 := b64Char_inj_mod hc0
    have e1 := b64Char_inj_mod hc1
    have heq : a = a2 := by omega
    rw [heq]
  | case4 =>
    intro l2 hlen hm1 hm2 henc
    rcases l2 with - | ⟨a2, l2⟩
    · rfl
    · simp at hlen

/-- Client construction options (src/models.ts BittrexApiOptions). -/
structure BittrexApiOptions where
  apikey : String
  apisecret : String
  axiosOptions : Option (List (String × Nat)) := none
  apiVersion : Option String := none

/-- AXIOS_DEFAULTS from src/rest-client.ts: a module-level object, created
once when the module loads and shared by every constructor call. Transport
configuration values are embedded as numbers (the single default is the
timeout). -/
def AXIOS_DEFAULTS : List (String × Nat) := [("timeout", 15000)]

/-- The constructor merge axios.create(Object.assign(AXIOS_DEFAULTS,
options.axiosOptions or empty)). Object.assign mutates its target, so the
instance configuration and the post-construction state of the shared
defaults object are one and the same object; the pair carries (instance
configuration, state of the shared defaults after construction). -/
def constructorMerge (defaults : List (String × Nat))
    (axiosOptions : Option (List (String × Nat))) :
    List (String × Nat) × List (String × Nat) :=
  (objAssign defaults (axiosOptions.getD []), objAssign defaults (axiosOptions.getD []))

/-- The per-call AxiosRequestConfig fields the executor touches; none
models an absent property. validateStatusAll true models the
constant-true validateStatus hook installed by the executor. -/
structure AxiosRequestConfig where
  params : Option (List (String × Option String)) := none
  url : Option String := none
  headers : Option (List (String × String)) := none
  timeout : Option Nat := none
  validateStatusAll : Option Bool := none

/-- delete options.params in RestClient.http: removes the property from
the caller-visible options object. -/
def deleteParams (o : AxiosRequestConfig) : AxiosRequestConfig :=
  { o with params := none }

/-- The query string built by RestClient.http from options.params. -/
def httpQuerystring (opts : BittrexApiOptions)
    (params : Option (List (String × Option String))) (nonce : String) : String :=
  stringify (injectAuthParams (params.getD []) opts.apikey nonce)

/-- The full request URL built by RestClient.http. -/
def fullUrl (opts : BittrexApiOptions) (path querystring : String) : String :=
  urlJoin ["https://bittrex.com/api/", opts.apiVersion.getD "v1.1", path,
    "?" ++ querystring]

/-- The object literal that is the first Object.assign argument when
requestOptions is built: url, apisign header, accept-all validateStatus. -/
def requestDefaults (opts : BittrexApiOptions) (furl : String) : AxiosRequestConfig :=
  { params := none, url := some furl,
    headers := some [("apisign", getHmac furl opts.apisecret)],
    timeout := none, validateStatusAll := some true }

/-- Object.assign on two request configurations: a property present on the
second completely overrides the first, per key. -/
def mergeConfig (base o : AxiosRequestConfig) : AxiosRequestConfig :=
  { params := match o.params with | some p => some p | none => base.params,
    url := match o.url with | some u => some u | none => base.url,
    headers := match o.headers with | some h => some h | none => base.headers,
    timeout := match o.timeout with | some t => some t | none => base.timeout,
    validateStatusAll := match o.validateStatusAll with
      | some v => some v | none => base.validateStatusAll }

/-- RestClient.http steps before dispatch: the request configuration
handed to the transport, given the per-call options and the freshly
generated nonce. -/
def httpRequestOptions (opts : BittrexApiOptions) (path : String)
    (options : AxiosRequestConfig) (nonce : String) : AxiosRequestConfig :=
  mergeConfig
    (requestDefaults opts (fullUrl opts path (httpQuerystring opts options.params nonce)))
    (deleteParams options)

/-- JSON values carried in envelope result fields. -/
inductive Json
  | null
  | bool (b : Bool)
  | num (n : Int)
  | str (s : String)
  | arr (elems : List Json)
  | obj (fields : List (String × Json))

/-- The ApiResponse envelope from src/models.ts. An absent success field
of an empty body is modelled as false (JS falsiness). -/
structure ApiResponse where
  success : Bool
  message : String
  result : Json

/-- The transport response fields the executor inspects. -/
structure AxiosResponse where
  status : Nat
  statusText : String
  data : ApiResponse

/-- Outcome of the awaited transport dispatch: the await either throws a
transport error (carried as its display string) or returns a response;
every status code is delivered because validateStatus accepts all. -/
inductive TransportOutcome
  | throws (e : String)
  | returns (r : AxiosResponse)

/-- The two error classes of src/errors.ts, with the constructor arguments
msg, bittexMessage, statusCode of BittrexHttpError as fields. -/
inductive RestClientError
  | bittrexHttpError (msg : String) (bittexMessage : Option String) (statusCode : Option Nat)
  | bittrexRestApiError (bittexMessage : String)

/-- The name property each error class assigns to itself. -/
def errorName : RestClientError → String
  | .bittrexHttpError _ _ _ => "HTTPError"
  | .bittrexRestApiError _ => "BittrexRestApiError"

/-- The message property: BittrexHttpError passes msg through to super;
BittrexRestApiError formats a sentence around its bittexMessage. -/
def errorMessage : RestClientError → String
  | .bittrexHttpError m _ _ => m
  | .bittrexRestApiError m => "bittrex returned \"" ++ m ++ "\" error"

/-- JS Error.prototype.toString: name, colon and space, message. -/
def errorToString (e : RestClientError) : String :=
  errorName e ++ ": " ++ errorMessage e

/-- The message template of the non-200 branch of RestClient.http. -/
def httpStatusMessage (status : Nat) (statusText : String) : String :=
  "received http " ++ toString status ++ " from bittrex with message \"" ++
    statusText ++ "\""

/-- The response-normalization tail of RestClient.http (the try/catch
around the dispatch and the status/success decision logic). -/
def handleOutcome : TransportOutcome → Except RestClientError AxiosResponse
  | .throws e => .error (.bittrexHttpError e none none)
  | .returns r =>
    if r.status ≠ 200 then
      .error (.bittrexHttpError (httpStatusMessage r.status r.statusText)
        (some r.statusText) (some r.status))
    else if r.data.success then .ok r
    else .error (.bittrexRestApiError r.data.message)

/-- The wrapper methods of RestClient. -/
inductive Method
  | getMarkets
  | getCurrencies
  | getTicker
  | getMarketSummaries
  | getMarketSummary
  | getOrderBook
  | getMarketHistory
  | getBalances
  | getBalance
  | getOrderHistory
  | getDepositHistory
  | getDepositAddress
  | getOrder
  | withdraw
  | getWithdrawlHistory
  | buyLimit
  | sellLimit
  | cancelOrder
  | getOpenOrders
  deriving DecidableEq

/-- JS indexing result[0]: the first element of an array; the undefined
produced on anything else is modelled as null. -/
def jsIndex0 : Json → Json
  | .arr (x :: _) => x
  | _ => .null

/-- What each wrapper method hands back to its caller as a function of the
envelope result of its successful executor call: getMarketSummary returns
result[0], cancelOrder returns nothing (void), and every other method
returns result unmodified. -/
def methodReturn : Method → Json → Option Json
  | .getMarketSummary, r => some (jsIndex0 r)
  | .cancelOrder, _ => none
  | _, r => some r

/-- The params object built by getDepositHistory: the currency key is
always present, holding the possibly-undefined caller argument. -/
def getDepositHistoryParams (currency : Option String) : List (String × Option String) :=
  [("currency", currency)]

/-- The params object built by getWithdrawlHistory: the currency key is
always present, holding the possibly-undefined caller argument. -/
def getWithdrawlHistoryParams (currency : Option String) : List (String × Option String) :=
  [("currency", currency)]

/-- C1: for every call to the executor, the transport outcome is
normalized in exactly one of four ways: a transport failure is wrapped in
a BittrexHttpError; a non-200 status yields a BittrexHttpError carrying
the status code and status text; a 200 response whose envelope success is
false yields a BittrexRestApiError carrying the envelope message; and a
200 response with success true is returned whole. No other outcome is
possible and no failure is recovered. -/
theorem http_outcome_cases (out : TransportOutcome) :
    (∃ e, out = .throws e ∧
      handleOutcome out = .error (.bittrexHttpError e none none)) ∨
    (∃ r, out = .returns r ∧ r.status ≠ 200 ∧
      handleOutcome out = .error (.bittrexHttpError
        (httpStatusMessage r.status r.statusText) (some r.statusText) (some r.status))) ∨
    (∃ r, out = .returns r ∧ r.status = 200 ∧ r.data.success = false ∧
      handleOutcome out = .error (.bittrexRestApiError r.data.message)) ∨
    (∃ r, out = .returns r ∧ r.status = 200 ∧ r.data.success = true ∧
      handleOutcome out = .ok r) := by
  cases out with
  | throws e => exact Or.inl ⟨e, rfl, rfl⟩
  | returns r =>
    by_cases hs : r.status = 200
    · by_cases hb : r.data.success
      · exact Or.inr (Or.inr (Or.inr ⟨r, rfl, hs, hb, by simp [handleOutcome, hs, hb]⟩))
      · exact Or.inr (Or.inr (Or.inl ⟨r, rfl, hs, by simpa using hb,
          by simp [handleOutcome, hs, hb]⟩))
    · exact Or.inr (Or.inl ⟨r, rfl, hs, by simp [handleOutcome, hs]⟩)

/-- C2: whatever params object the caller supplies, the merged object the
query string is serialized from binds apikey to the configured key and
nonce to the freshly generated nonce (the injected values win over any
caller-supplied bindings for those keys), both corresponding fragments
appear in the serialized query string, and the query string is exactly the
ampersand join of the fragments of the merged object. -/
theorem http_querystring_injects_auth (callerParams : List (String × Option String))
    (apikey nonce : String) :
    objGet (injectAuthParams callerParams apikey nonce) "apikey" = some (some apikey) ∧
    objGet (injectAuthParams callerParams apikey nonce) "nonce" = some (some nonce) ∧
    ("apikey=" ++ qsEscape apikey) ∈ stringifyPairs (injectAuthParams callerParams apikey nonce) ∧
    ("nonce=" ++ qsEscape nonce) ∈ stringifyPairs (injectAuthParams callerParams apikey nonce) ∧
    stringify (injectAuthParams callerParams apikey nonce) =
      String.intercalate "&" (stringifyPairs (injectAuthParams callerParams apikey nonce)) := by
  refine ⟨objGet_injectAuthParams_apikey _ _ _, objGet_injectAuthParams_nonce _ _ _, ?_, ?_, rfl⟩
  · have hmem := stringifyPair_mem_of_objGet (objGet_injectAuthParams_apikey callerParams
      apikey nonce)
    have he : stringifyPair ("apikey", some apikey) = "apikey=" ++ qsEscape apikey := by
      show qsEscape "apikey" ++ "=" ++ qsEscape apikey = "apikey=" ++ qsEscape apikey
      rw [show qsEscape "apikey" ++ "=" = "apikey=" from by decide]
    rwa [he] at hmem
  · have hmem := stringifyPair_mem_of_objGet (objGet_injectAuthParams_nonce callerParams
      apikey nonce)
    have he : stringifyPair ("nonce", some nonce) = "nonce=" ++ qsEscape nonce := by
      show qsEscape "nonce" ++ "=" ++ qsEscape nonce = "nonce=" ++ qsEscape nonce
      rw [show qsEscape "nonce" ++ "=" = "nonce=" from by decide]
    rwa [he] at hmem

/-- A 404 response with empty body: the transport supplies status text
"null" and the empty-object body has no success field (falsy). -/
def notFoundResponse : AxiosResponse :=
  { status := 404
    statusText := "null"
    data := { success := false, message := "", result := .null } }

/-- C6: on a 404 response with empty body and transport status text
"null", the executor throws a BittrexHttpError whose display string is
"HTTPError: received http 404 from bittrex with message \x22null\x22",
which differs from the claimed (and unit-tested) display string
"...received status code 404 and text \x22null\x22...". -/
theorem http_404_error_string :
    handleOutcome (.returns notFoundResponse) =
      .error (.bittrexHttpError "received http 404 from bittrex with message \"null\""
        (some "null") (some 404)) ∧
    errorToString (.bittrexHttpError "received http 404 from bittrex with message \"null\""
      (some "null") (some 404)) =
      "HTTPError: received http 404 from bittrex with message \"null\"" ∧
    "HTTPError: received http 404 from bittrex with message \"null\"" ≠
      "HTTPError: received status code 404 and text \"null\"" := by
  refine ⟨rfl, rfl, by decide⟩

/-- C8: evidence that transportOverrides leak across instances. The shared
AXIOS_DEFAULTS object starts with timeout 15000; constructing one client
with a timeout override of 5000 mutates the shared object in place, so a
second client constructed afterwards with no overrides receives timeout
5000, not the original default 15000. -/
theorem shared_axios_defaults_mutated :
    objGet AXIOS_DEFAULTS "timeout" = some 15000 ∧
    (constructorMerge AXIOS_DEFAULTS (some [("timeout", 5000)])).2 = [("timeout", 5000)] ∧
    objGet (constructorMerge
      ((constructorMerge AXIOS_DEFAULTS (some [("timeout", 5000)])).2) none).1 "timeout" =
      some 5000 ∧
    some (5000 : Nat) ≠ some 15000 := by
  exact ⟨rfl, rfl, rfl, by decide⟩

/-- C9 counterexample: after a call through the executor with an empty
caller-supplied params object, configured key "K" and nonce "N", the
caller-visible params object holds both the injected apikey and the nonce,
refuting the claim that no caller-visible object retains them. -/
theorem caller_params_retain_nonce :
    objGet (injectAuthParams [] "K" "N") "nonce" = some (some "N") ∧
    objGet (injectAuthParams [] "K" "N") "apikey" = some (some "K") ∧
    objGet (injectAuthParams [] "K" "N") "nonce" ≠ none := by
  refine ⟨rfl, rfl, by simp [injectAuthParams, objAssign, objSet, objGet]⟩

/-- C9 amended: the nonce is request-scoped on the client side, and the
params property is deleted from the caller-visible options object before
dispatch; however the caller-supplied params mapping itself is mutated in
place by the merge and holds the injected apikey and nonce after the
call. -/
theorem nonce_request_scoped_amended (callerParams : List (String × Option String))
    (options : AxiosRequestConfig) (apikey nonce : String) :
    (deleteParams options).params = none ∧
    objGet (injectAuthParams callerParams apikey nonce) "nonce" = some (some nonce) ∧
    objGet (injectAuthParams callerParams apikey nonce) "apikey" = some (some apikey) :=
  ⟨rfl, objGet_injectAuthParams_nonce _ _ _, objGet_injectAuthParams_apikey _ _ _⟩

/-- C10: when the caller omits the currency argument, getDepositHistory
and getWithdrawlHistory still pass a params object binding the currency
key to undefined, so the serialized query string contains a currency=
fragment with an empty value rather than omitting the key. -/
theorem history_params_currency_always_serialized (apikey nonce : String) :
    objGet (injectAuthParams (getDepositHistoryParams none) apikey nonce) "currency" =
      some none ∧
    "currency=" ∈ stringifyPairs (injectAuthParams (getDepositHistoryParams none) apikey nonce) ∧
    objGet (injectAuthParams (getWithdrawlHistoryParams none) apikey nonce) "currency" =
      some none ∧
    "currency=" ∈ stringifyPairs (injectAuthParams (getWithdrawlHistoryParams none)
      apikey nonce) ∧
    stringify (injectAuthParams (getDepositHistoryParams none) apikey nonce) =
      String.intercalate "&" (stringifyPairs (injectAuthParams (getDepositHistoryParams none)
        apikey nonce)) := by
  have hget : objGet (injectAuthParams (getDepositHistoryParams none) apikey nonce)
      "currency" = some none := by
    rw [injectAuthParams_eq, objGet_objSet_ne _ _ (by decide),
      objGet_objSet_ne _ _ (by decide)]
    rfl
  have hmem := stringifyPair_mem_of_objGet hget
  rw [show stringifyPair ("currency", none) = "currency=" from by decide] at hmem
  exact ⟨hget, hmem, hget, hmem, rfl⟩

/-- C7 counterexample: cancelOrder is a wrapper method other than
getMarketSummary, yet it discards the envelope result (it returns void)
instead of returning the result unmodified. -/
theorem cancelOrder_discards_result :
    methodReturn Method.cancelOrder (Json.str "ok") = none ∧
    methodReturn Method.cancelOrder (Json.str "ok") ≠ some (Json.str "ok") := by
  refine ⟨rfl, ?_⟩
  intro h
  exact Option.noConfusion h

/-- C7 amended: getMarketSummary returns the single element of a
one-element result array; cancelOrder returns nothing; every other
wrapper method returns the envelope result unmodified. -/
theorem wrapper_result_unwrapping (m : Method) (r x : Json) :
    methodReturn Method.getMarketSummary (Json.arr [x]) = some x ∧
    methodReturn Method.cancelOrder r = none ∧
    (m ≠ Method.getMarketSummary → m ≠ Method.cancelOrder → methodReturn m r = some r) := by
  refine ⟨rfl, rfl, ?_⟩
  intro h1 h2
  cases m
  case getMarketSummary => exact absurd rfl h1
  case cancelOrder => exact absurd rfl h2
  all_goals rfl

/-- Witness for the amended C7 statement at a concrete method and result. -/
theorem wrapper_result_unwrapping_witness :
    methodReturn Method.getTicker (Json.str "t") = some (Json.str "t") :=
  (wrapper_result_unwrapping Method.getTicker (Json.str "t") Json.null).2.2
    (by decide) (by decide)

/-- C4: the nonce is the base64 rendering of the 16 freshly drawn random
bytes, it is exactly 24 characters long, and distinct byte draws yield
distinct nonces (so two calls obtain equal nonces only when their
independent 16-byte draws collide). -/
theorem getNonce_length_and_distinct (bs1 bs2 : List Nat)
    (h1 : bs1.length = 16) (h2 : bs2.length = 16)
    (hb1 : ∀ x ∈ bs1, x < 256) (hb2 : ∀ x ∈ bs2, x < 256) :
    getNonce bs1 = ⟨base64Encode bs1⟩ ∧
    (getNonce bs1).length = 24 ∧
    (bs1 ≠ bs2 → getNonce bs1 ≠ getNonce bs2) := by
  refine ⟨rfl, ?_, ?_⟩
  · show (base64Encode bs1).length = 24
    rw [base64Encode_length, h1]
  · intro hne heq
    exact hne (base64Encode_inj bs1 bs2 (by rw [h1, h2]) hb1 hb2 (congrArg String.data heq))

/-- Witness for C4 at two concrete 16-byte draws. -/
theorem getNonce_length_and_distinct_witness :
    getNonce (List.replicate 16 0) = ⟨base64Encode (List.replicate 16 0)⟩ ∧
    (getNonce (List.replicate 16 0)).length = 24 ∧
    (List.replicate 16 0 ≠ [0, 1, 2, 3, 4, 5, 6, 7, 8, 9, 10, 11, 12, 13, 14, 15] →
      getNonce (List.replicate 16 0) ≠
        getNonce [0, 1, 2, 3, 4, 5, 6, 7, 8, 9, 10, 11, 12, 13, 14, 15]) :=
  getNonce_length_and_distinct _ _ (by decide) (by decide) (by decide) (by decide)

/-- Client options shared by concrete witnesses: key "k", secret "s". -/
def optsKS : BittrexApiOptions := { apikey := "k", apisecret := "s" }

/-- Per-call options carrying a headers object of their own. -/
def optionsWithHeaders : AxiosRequestConfig := { headers := some [] }

/-- C3 counterexample: per-call options that carry a headers object
replace the default headers wholesale in the Object.assign merge, so the
dispatched request carries no apisign header at all. -/
theorem apisign_missing_with_caller_headers :
    (httpRequestOptions optsKS "/public/getmarkets" optionsWithHeaders "N").headers =
      some [] ∧
    objGet ((httpRequestOptions optsKS "/public/getmarkets" optionsWithHeaders
      "N").headers.getD []) "apisign" = none ∧
    (httpRequestOptions optsKS "/public/getmarkets" optionsWithHeaders "N").headers ≠
      some [("apisign", getHmac (fullUrl optsKS "/public/getmarkets"
        (httpQuerystring optsKS none "N")) "s")] := by
  refine ⟨rfl, rfl, ?_⟩
  intro h
  have : ([] : List (String × String)) = [("apisign", getHmac (fullUrl optsKS
      "/public/getmarkets" (httpQuerystring optsKS none "N")) "s")] := by
    injection h
  exact List.noConfusion this

/-- C3 amended: for every executor call whose per-call options do not
supply a headers object, the dispatched request carries an apisign header
whose value is the HMAC-SHA512 of the full request URL keyed with the
configured secret, rendered as exactly 128 lowercase hexadecimal
characters. -/
theorem apisign_header_hmac (opts : BittrexApiOptions) (path : String)
    (options : AxiosRequestConfig) (nonce : String) (h : options.headers = none) :
    (httpRequestOptions opts path options nonce).headers =
      some [("apisign", getHmac (fullUrl opts path
        (httpQuerystring opts options.params nonce)) opts.apisecret)] ∧
    (getHmac (fullUrl opts path (httpQuerystring opts options.params nonce))
      opts.apisecret).length = 128 ∧
    ∀ c ∈ (getHmac (fullUrl opts path (httpQuerystring opts options.params nonce))
      opts.apisecret).data, c ∈ hexDigitsLower := by
  refine ⟨?_, getHmac_length _ _, toHexLower_chars _⟩
  simp [httpRequestOptions, mergeConfig, deleteParams, requestDefaults, h]

/-- Witness for the amended C3 statement at concrete options without a
headers object. -/
theorem apisign_header_hmac_witness :
    (httpRequestOptions optsKS "/public/getmarkets" {} "N").headers =
      some [("apisign", getHmac (fullUrl optsKS "/public/getmarkets"
        (httpQuerystring optsKS none "N")) optsKS.apisecret)] ∧
    (getHmac (fullUrl optsKS "/public/getmarkets" (httpQuerystring optsKS none "N"))
      optsKS.apisecret).length = 128 ∧
    ∀ c ∈ (getHmac (fullUrl optsKS "/public/getmarkets" (httpQuerystring optsKS none "N"))
      optsKS.apisecret).data, c ∈ hexDigitsLower :=
  apisign_header_hmac optsKS "/public/getmarkets" {} "N" rfl

/-- C5: for every executor call whose per-call options do not override the
request URL, the dispatched URL is the full URL assembled by the join, the
apisign header of the request defaults is the HMAC of exactly that URL
string, and the full URL is the base, the configured version segment
(defaulting to v1.1) and the path joined with single separators regardless
of leading or trailing slashes on the path, followed immediately by the
serialized query string. -/
theorem http_url_construction (opts : BittrexApiOptions) (path : String)
    (options : AxiosRequestConfig) (nonce : String)
    (hurl : options.url = none)
    (hv : (opts.apiVersion.getD "v1.1").data.head? ≠ some '?')
    (hp : path.data.head? ≠ some '?')
    (htv : trimSlashes (opts.apiVersion.getD "v1.1") ≠ "")
    (htp : trimSlashes path ≠ "") :
    (httpRequestOptions opts path options nonce).url =
      some (fullUrl opts path (httpQuerystring opts options.params nonce)) ∧
    (requestDefaults opts (fullUrl opts path
      (httpQuerystring opts options.params nonce))).headers =
      some [("apisign", getHmac (fullUrl opts path
        (httpQuerystring opts options.params nonce)) opts.apisecret)] ∧
    fullUrl opts path (httpQuerystring opts options.params nonce) =
      "https://bittrex.com/api/" ++ trimSlashes (opts.apiVersion.getD "v1.1") ++ "/" ++
        trimSlashes path ++ ("?" ++ httpQuerystring opts options.params nonce) := by
  refine ⟨?_, rfl, ?_⟩
  · simp [httpRequestOptions, mergeConfig, deleteParams, requestDefaults, hurl]
  · exact urlJoin_bittrex _ _ _ hv hp htv htp

/-- Witness for C5 at concrete client options and path. -/
theorem http_url_construction_witness :
    (httpRequestOptions optsKS "/public/getmarkets" {} "N").url =
      some (fullUrl optsKS "/public/getmarkets" (httpQuerystring optsKS none "N")) ∧
    (requestDefaults optsKS (fullUrl optsKS "/public/getmarkets"
      (httpQuerystring optsKS none "N"))).headers =
      some [("apisign", getHmac (fullUrl optsKS "/public/getmarkets"
        (httpQuerystring optsKS none "N")) optsKS.apisecret)] ∧
    fullUrl optsKS "/public/getmarkets" (httpQuerystring optsKS none "N") =
      "https://bittrex.com/api/" ++ trimSlashes (optsKS.apiVersion.getD "v1.1") ++ "/" ++
        trimSlashes "/public/getmarkets" ++ ("?" ++ httpQuerystring optsKS none "N") :=
  http_url_construction optsKS "/public/getmarkets" {} "N" rfl (by decide) (by decide)
    (by decide) (by decide)
